import Mathlib

/-!
Shallow embedding of `src/Tools/rmsds.cpp` (pair-wise RMSD tool).

Conventions of the embedding:
* C++ `double` values are modelled as exact rationals `ℚ`; the final
  `sqrt` of `calcRMSD` lands in `ℝ` via `Real.sqrt`.
* a flattened coordinate vector (`vDouble` in the source) is a `List ℚ`;
  a trajectory (`vMatrix`) is a `List (List ℚ)`.
* out-of-range element accesses (undefined behaviour in C++) are modelled
  by `List.getD` with default `0`; all claims restrict attention to the
  in-bounds regime, where `getD` agrees with the real access.
* the external LAPACK routines are modelled as oracle parameters:
  `dgemm_` is inlined as the exact cross-covariance matrix it computes,
  and `dgesvj_` becomes a parameter `svd` producing the sum
  `S[0]+S[1]+S[2]` that the code reads back (as an `Except` when the
  `info` failure path matters).
* division by zero (which yields NaN for C++ doubles) follows Lean's
  `x / 0 = 0` convention; the claims touching that case say so explicitly.
-/

namespace Rmsds

/-- Source line 42: `const int matrix_precision = 2;`. -/
def matrix_precision : ℕ := 2

/-- Source line 58: `const double cache_memory_fraction_warning = 0.66;`.
Note that this constant is never referenced anywhere else in the source file. -/
def cache_memory_fraction_warning : ℚ := 66 / 100

/-- A flattened coordinate vector (`vDouble` = `vector<double>` in the source). -/
abbrev Frame := List ℚ

/-- Element access `w[i]`; out of range accesses (UB in C++) default to `0`. -/
def flatGet (w : Frame) (i : ℕ) : ℚ := w.getD i 0

/-- Number of iterations of a loop `for (j = 0; j < n; j += 3)`. -/
def tripCount (n : ℕ) : ℕ := (n + 2) / 3

/-- The flat indices read from both `u` and `v` by the squared-norm loop of
`calcRMSD` (source lines 250-255): `j + i` for `j = 0, 3, 6, ... < n` and
`i < 3`, where `n = u.size()`. -/
def readIndices (n : ℕ) : List ℕ :=
  (List.range (tripCount n)).flatMap (fun k => [3 * k, 3 * k + 1, 3 * k + 2])

/-- The flat indices of `u` and `v` read by the `dgemm_` cross-covariance
product (source line 271), which uses `n / 3` complete atom triples. -/
def covIndices (n : ℕ) : List ℕ :=
  (List.range (n / 3)).flatMap (fun k => [3 * k, 3 * k + 1, 3 * k + 2])

/-- All element accesses of `calcRMSD` on `u` and `v` are within bounds. -/
def inBounds (u v : Frame) : Prop :=
  ∀ i ∈ readIndices u.length, i < u.length ∧ i < v.length

instance (u v : Frame) : Decidable (inBounds u v) := by
  unfold inBounds; infer_instance

/-- Per-axis squared sum accumulated by the loop at source lines 250-255:
`ssu[a] = Σ_j w[j+a]^2` over `j = 0, 3, ... < len`.  The bound `len` is
always `u.size()` in the source, for the `v` accumulator as well. -/
def ssAxis (w : Frame) (len : ℕ) (a : ℕ) : ℚ :=
  ∑ k ∈ Finset.range (tripCount len), (flatGet w (3 * k + a)) ^ 2

/-- Source line 259: `E0 = ssu[0]+ssu[1]+ssu[2]+ssv[0]+ssv[1]+ssv[2]`,
where both accumulation loops are bounded by `u.size()`. -/
def E0 (u v : Frame) : ℚ :=
  (∑ a ∈ Finset.range 3, ssAxis u u.length a) +
    ∑ a ∈ Finset.range 3, ssAxis v u.length a

/-- A 3×3 real matrix (the `double R[9]` / `double V[9]` of the source). -/
abbrev Mat3 := Fin 3 → Fin 3 → ℚ

/-- The cross-covariance matrix computed by the `dgemm_` call at source
line 271: `R(a,b) = Σ_{k < n/3} u[3k+a] * v[3k+b]` (`N`/`T` product of the
two 3×(n/3) column-major coordinate matrices). -/
def covR (u v : Frame) : Mat3 := fun a b =>
  ∑ k ∈ Finset.range (u.length / 3), flatGet u (3 * k + a) * flatGet v (3 * k + b)

/-- Transpose of a 3×3 matrix. -/
def mat3Transpose (A : Mat3) : Mat3 := fun a b => A b a

/-- Source line 294 given the backend's singular-value sum `ss`:
`rmsd = sqrt(abs(E0 - 2.0*ss)/n)` with `n = u.size()/3` (integer division,
source lines 245 and 257).  For `n = 0` the C++ division yields NaN; here
it follows the Lean `x / 0 = 0` convention. -/
noncomputable def rmsdOf (ss : ℚ) (u v : Frame) : ℝ :=
  Real.sqrt (((|E0 u v - 2 * ss| / (u.length / 3 : ℕ) : ℚ) : ℝ))

/-- The whole of `calcRMSD` (source lines 244-296) for a run in which the
SVD backend succeeds, parametrised by the backend `svd` producing the sum
`S[0]+S[1]+S[2]` of the values returned by `dgesvj_` for a given matrix. -/
noncomputable def calcRMSD (svd : Mat3 → ℚ) (u v : Frame) : ℝ :=
  rmsdOf (svd (covR u v)) u v

/-- The error conditions named by the specification for the RMSD kernel. -/
inductive RmsdError
  | inputError
  | numericalError (info : ℤ)
deriving DecidableEq

/-- `calcRMSD` with the backend's failure channel: the only `throw` in the
source body is the `NumericalError` raised when `dgesvj_` reports
`info != 0` (source lines 290-291); there is no input-size check. -/
noncomputable def calcRMSDE (svd : Mat3 → Except ℤ ℚ) (u v : Frame) :
    Except RmsdError ℝ :=
  match svd (covR u v) with
  | .error i => .error (.numericalError i)
  | .ok ss => .ok (rmsdOf ss u v)

/-- Coordinate `a` (0 = x, 1 = y, 2 = z) of atom `k` in a flattened frame. -/
def atomGet (w : Frame) (k a : ℕ) : ℚ := flatGet w (3 * k + a)

/-- The claim-level description of `E0`: the sum of the squared norms of
both point sets, indexed per atom (`n` atoms). -/
def E0Atoms (n : ℕ) (u v : Frame) : ℚ :=
  ∑ k ∈ Finset.range n, ∑ a ∈ Finset.range 3,
    ((atomGet u k a) ^ 2 + (atomGet v k a) ^ 2)

/-- The claim-level description of the cross-covariance matrix:
`R[a][b] = Σ_k u_k[a] * v_k[b]` over the `n` atoms. -/
def covRAtoms (n : ℕ) (u v : Frame) : Mat3 := fun a b =>
  ∑ k ∈ Finset.range n, atomGet u k a * atomGet v k b

/-- The RMSD formula exactly as the specification words it, with the
`max(0, ...)` clamp, for backend singular-value sum `ss`; used only to be
compared against the formula the source actually computes. -/
noncomputable def specRMSDFormula (ss : ℚ) (u v : Frame) : ℝ :=
  Real.sqrt (((max 0 (E0 u v - 2 * ss) / (u.length / 3 : ℕ) : ℚ) : ℝ))

/-- Per-axis sums of a flattened frame, accumulated three at a time exactly
as the loop at source lines 219-223 does.  Trailing elements past the last
complete triple (out-of-bounds reads in C++) are ignored. -/
def axisSums : List ℚ → ℚ × ℚ × ℚ
  | x :: y :: z :: r =>
    ((axisSums r).1 + x, (axisSums r).2.1 + y, (axisSums r).2.2 + z)
  | _ => (0, 0, 0)

/-- The subtraction loop at source lines 228-232: subtract `c[0..2]` from
each complete coordinate triple. -/
def subTriples (c : ℚ × ℚ × ℚ) : List ℚ → List ℚ
  | x :: y :: z :: r => (x - c.1) :: (y - c.2.1) :: (z - c.2.2) :: subTriples c r
  | l => l

/-- Number of complete coordinate triples of a flattened frame. -/
def tripleCount : List ℚ → ℕ
  | _ :: _ :: _ :: r => tripleCount r + 1
  | _ => 0

/-- Source lines 216-233, `centerAtOrigin`: per axis, the subtracted value
is `c[a] = 3 * (axis sum) / v.size()`. -/
def centerAtOrigin (v : List ℚ) : List ℚ :=
  subTriples
    (3 * (axisSums v).1 / v.length,
     3 * (axisSums v).2.1 / v.length,
     3 * (axisSums v).2.2 / v.length) v

/-- Source lines 237-240, `centerTrajectory`: center every frame once. -/
def centerTrajectory (M : List (List ℚ)) : List (List ℚ) :=
  M.map centerAtOrigin

/-- The ordered list of loop-index pairs `(j, i)` visited by the double loop
of `rmsds` (source lines 311-316): `j = 1 .. n-1` outer, `i = 0 .. j-1`
inner. -/
def pairList (n : ℕ) : List (ℕ × ℕ) :=
  (List.range' 1 (n - 1)).flatMap (fun j => (List.range j).map (fun i => (j, i)))

/-- A single assignment `R(j, i) = x` on the matrix, viewed as a function.
The zero-initialized storage of LOOS's `RealMatrix` is modelled from the
spec ("leaving the diagonal at zero"): the matrix class itself lives
outside `src/`. -/
noncomputable def writeCell (R : ℕ → ℕ → ℝ) (j i : ℕ) (x : ℝ) : ℕ → ℕ → ℝ :=
  fun a b => if a = j ∧ b = i then x else R a b

/-- One iteration of the inner loop body (source lines 313-315): compute
the pair RMSD, store it at `(j, i)`, mirror it at `(i, j)`, and advance the
progress counter by one (`slayer.update()`). -/
noncomputable def rmsdsStep (svd : Mat3 → ℚ) (M : List Frame)
    (st : (ℕ → ℕ → ℝ) × ℕ) (p : ℕ × ℕ) : (ℕ → ℕ → ℝ) × ℕ :=
  let x := calcRMSD svd (M.getD p.1 []) (M.getD p.2 [])
  (writeCell (writeCell st.1 p.1 p.2 x) p.2 p.1 x, st.2 + 1)

/-- The whole pair loop of `rmsds` (source lines 300-320): fold the step
over the visited pairs, starting from the zero-initialized matrix and a
zero progress count. -/
noncomputable def rmsdsLoop (svd : Mat3 → ℚ) (M : List Frame) :
    (ℕ → ℕ → ℝ) × ℕ :=
  (pairList M.length).foldl (rmsdsStep svd M) (fun _ _ => 0, 0)

/-- The matrix returned by `rmsds`. -/
noncomputable def rmsds (svd : Mat3 → ℚ) (M : List Frame) : ℕ → ℕ → ℝ :=
  (rmsdsLoop svd M).1

/-- Source line 304: `total = floor(n * (n-1) / 2.0)`, exact in `ℕ`. -/
def rmsdsTotal (n : ℕ) : ℕ := n * (n - 1) / 2

/-- The progress count after the first `k` pair iterations. -/
noncomputable def countAfter (svd : Mat3 → ℚ) (M : List Frame) (k : ℕ) : ℕ :=
  (((pairList M.length).take k).foldl (rmsdsStep svd M) (fun _ _ => 0, 0)).2

/-- The percentage trigger of the progress reporter, holding its configured
fraction (`PercentTrigger` lives in LOOS, outside `src/`). -/
structure PercentTrigger where
  fraction : ℚ

/-- Modelled from the spec: a status line is emitted exactly when the
completion fraction crosses a multiple of the trigger's configured
fraction (the `PercentTrigger` class itself is LOOS code outside `src/`). -/
def PercentTrigger.fires (t : PercentTrigger) (total prev cur : ℕ) : Prop :=
  ∃ m : ℕ, (prev : ℚ) / total < m * t.fraction ∧
    (m * t.fraction : ℚ) ≤ (cur : ℚ) / total

/-- Source line 306: `PercentTrigger trigger(0.1)`. -/
def rmsdsTrigger : PercentTrigger := ⟨1 / 10⟩

/-- A centered two-atom frame used by the C1 counterexample and witness. -/
def uC1 : Frame := [1, 0, 0, -1, 0, 0]

/-- A possible output of the SVD backend (the code uses whatever values
`dgesvj_` returns, which carry floating-point round-off). -/
def svdBad : Mat3 → ℚ := fun _ => 10

/-- The trace, a transpose-invariant function of a 3×3 matrix, standing in
for the SVD backend in the C7 witness. -/
def svdTrace : Mat3 → ℚ := fun A => A 0 0 + A 1 1 + A 2 2

/-- A concrete two-frame trajectory used by witnesses. -/
def MW : List Frame := [[1, 0, 0], [2, 0, 0]]

/-- Warnings the tool can surface; the specification's `ResourceWarning`. -/
inductive ToolWarning
  | resourceWarning
deriving DecidableEq

/-- The external trajectory collaborator, reduced to its interface: a frame
count and, per frame index and atom index, the 3D coordinate delivered by
`readFrame`/`updateGroupCoords`. -/
structure Traj where
  nframes : ℕ
  frameCoords : ℕ → ℕ → ℚ × ℚ × ℚ

/-- The external model/selection collaborator, reduced to what `readCoords`
consumes: the number of atoms of the (sub)group. -/
structure AtomicGroup where
  size : ℕ

/-- The external factory functions used by `main` (source lines 336-338),
abstracted as oracles. -/
structure World where
  createSystem : String → AtomicGroup
  createTrajectory : String → AtomicGroup → Traj
  selectAtoms : AtomicGroup → String → AtomicGroup

/-- Source lines 196-213, `readCoords`: read every frame `j = 0 .. l-1` of
the trajectory and flatten the `n` atom coordinates of each into a row,
paired with the warnings emitted along the way — the source contains no
warning logic at all (the constant `cache_memory_fraction_warning` is
declared at line 58 but never referenced), so the warning list is empty. -/
def readCoordsRun (n : ℕ) (traj : Traj) : List Frame × List ToolWarning :=
  ((List.range traj.nframes).map (fun j =>
    (List.range n).flatMap (fun i =>
      [(traj.frameCoords j i).1, (traj.frameCoords j i).2.1,
       (traj.frameCoords j i).2.2])), [])

/-- Modelled from the spec: the memory-estimate warning predicate the
specification requires of the coordinate cache — the estimate
`frames * atoms * 3 * 8` bytes exceeds the configured fraction of detected
physical memory (no code in `src/` computes this estimate or emits the
warning). -/
def specCacheWarning (frames atoms : ℕ) (physMem : ℚ) : Bool :=
  decide (cache_memory_fraction_warning * physMem <
    ((frames * atoms * 3 * 8 : ℕ) : ℚ))

/-- The rational value denoted by the numeral that C++ `operator<<` prints
for a `double` under `setprecision(p)` in the default floatfield: the value
rounded to `p` significant digits (scale by the decimal exponent, round,
scale back).  Ties round half-up here; IEEE printing rounds half-even, but
no claim in this development sits on a tie. -/
def sigRound (p : ℕ) (x : ℚ) : ℚ :=
  if x = 0 then 0
  else ((round (x / (10 : ℚ) ^ (Int.log 10 |x| - p + 1)) : ℤ) : ℚ) *
    (10 : ℚ) ^ (Int.log 10 |x| - p + 1)

/-- Modelled from the spec: the value rounded to a fixed decimal precision
of `p` decimal places, as the specification's output contract words it. -/
def decRound (p : ℕ) (x : ℚ) : ℚ :=
  ((round (x * (10 : ℚ) ^ p) : ℤ) : ℚ) / (10 : ℚ) ^ p

/-- The serialized output: the header comment line and the matrix rows,
each row a list of the rational values denoted by the printed numerals. -/
structure MatrixOutput where
  headerLine : String
  rows : List (List ℚ)
deriving DecidableEq

/-- Source lines 345-348: `cout << "# " << header << endl;` followed by
`cout << setprecision(matrix_precision) << M;`.  The row/whitespace layout
of the matrix `operator<<` is modelled from the spec (LOOS code outside
`src/`); each printed value carries `matrix_precision` significant digits
because `setprecision` is applied in the default floatfield mode. -/
def serializeMatrix (header : String) (M : List (List ℚ)) : MatrixOutput :=
  ⟨"# " ++ header, M.map (fun r => r.map (sigRound matrix_precision))⟩

/-- Modelled from the spec: the same serialization but with every value at
a fixed decimal precision of `matrix_precision` decimal places, as the
claim states it. -/
def specSerializeMatrix (header : String) (M : List (List ℚ)) : MatrixOutput :=
  ⟨"# " ++ header, M.map (fun r => r.map (decRound matrix_precision))⟩

/-- The tool's configuration record (`ToolOptions` plus the hidden/positional
options, source lines 121-187). -/
structure ToolOptions where
  noop : Bool
  sel1 : String
  skip1 : ℕ
  range1 : String
  sel2 : String
  skip2 : ℕ
  range2 : String
  model1 : String
  traj1 : String
  model2 : String
  traj2 : String

/-- What a completed run produces before serialization: the output
suppression flag, the frame count, and the RMSD matrix. -/
structure RunResult where
  noout : Bool
  nframes : ℕ
  matrix : ℕ → ℕ → ℝ

/-- Source lines 324-350, `main` after option parsing: build the system
from `model1`, the trajectory from `traj1`, the subset from `sel1`, read
and center all coordinates, and compute the pair-wise matrix.  No other
configuration field is ever read. -/
noncomputable def mainRun (w : World) (svd : Mat3 → ℚ) (topts : ToolOptions) :
    RunResult :=
  let model := w.createSystem topts.model1
  let traj := w.createTrajectory topts.traj1 model
  let subset := w.selectAtoms model topts.sel1
  let T := (readCoordsRun subset.size traj).1
  ⟨topts.noop, T.length, rmsds svd (centerTrajectory T)⟩

/-- The value rows of an `n × n` matrix, in row order — the part of the
serialized output that carries the matrix itself. -/
def matrixRows (R : ℕ → ℕ → ℝ) (n : ℕ) : List (List ℝ) :=
  (List.range n).map (fun i => (List.range n).map (fun j => R i j))

/-- A concrete world for the C10 witness. -/
def worldW : World :=
  ⟨fun _ => ⟨1⟩, fun _ _ => ⟨0, fun _ _ => (0, 0, 0)⟩, fun g _ => g⟩

/-- A concrete configuration for the C10 witness. -/
def optsA : ToolOptions :=
  ⟨false, "name-eq-CA", 0, "", "name-eq-CA", 0, "", "m.pdb", "t.dcd", "", ""⟩

/-- The same configuration with different values for the unused options
`skip1`, `range1`, `sel2`, `skip2`, `range2`, `model2`, `traj2`. -/
def optsB : ToolOptions :=
  ⟨false, "name-eq-CA", 7, "1:10", "resid-lt-5", 3, "2:20", "m.pdb", "t.dcd",
    "m2.pdb", "t2.dcd"⟩

end Rmsds

namespace Rmsds

/-- Induction on a list three elements at a time, following the shape of the
recursions above. -/
theorem triple_ind (P : List ℚ → Prop) (hnil : P [])
    (h1 : ∀ x, P [x]) (h2 : ∀ x y, P [x, y])
    (h3 : ∀ x y z r, P r → P (x :: y :: z :: r)) : ∀ v, P v
  | [] => hnil
  | [x] => h1 x
  | [x, y] => h2 x y
  | x :: y :: z :: r => h3 x y z r (triple_ind P hnil h1 h2 h3 r)

theorem tripleCount_of_length (v : List ℚ) :
    ∀ n : ℕ, v.length = 3 * n → tripleCount v = n := by
  induction v using triple_ind with
  | hnil => intro n hn; simp [tripleCount] at hn ⊢; omega
  | h1 x => intro n hn; simp at hn; omega
  | h2 x y => intro n hn; simp at hn; omega
  | h3 x y z r ih =>
    intro n hn
    simp only [List.length_cons] at hn
    have hr : r.length = 3 * (n - 1) := by omega
    have hn1 : 1 ≤ n := by omega
    simp only [tripleCount, ih _ hr]
    omega

theorem axisSums_subTriples (c : ℚ × ℚ × ℚ) (v : List ℚ) :
    axisSums (subTriples c v) =
      ((axisSums v).1 - tripleCount v * c.1,
       (axisSums v).2.1 - tripleCount v * c.2.1,
       (axisSums v).2.2 - tripleCount v * c.2.2) := by
  induction v using triple_ind with
  | hnil => simp [subTriples, axisSums, tripleCount]
  | h1 x => simp [subTriples, axisSums, tripleCount]
  | h2 x y => simp [subTriples, axisSums, tripleCount]
  | h3 x y z r ih =>
    simp only [subTriples, axisSums, tripleCount, ih]
    push_cast
    refine Prod.ext ?_ (Prod.ext ?_ ?_) <;> simp <;> ring

/-- CLAIM C6: for every frame vector of length `3*n` with `n > 0`, after
`centerAtOrigin` the sum of coordinates along each of the three axes equals
zero exactly (exact arithmetic); the subtracted value per axis is the
centroid `3 * (axis sum) / length`; and `centerTrajectory` applies the
centering in place exactly once per frame. -/
theorem claim_C6 (v : List ℚ) (n : ℕ) (hlen : v.length = 3 * n) (hn : 0 < n) :
    axisSums (centerAtOrigin v) = (0, 0, 0) ∧
    centerAtOrigin v =
      subTriples
        (3 * (axisSums v).1 / v.length,
         3 * (axisSums v).2.1 / v.length,
         3 * (axisSums v).2.2 / v.length) v ∧
    ∀ M : List (List ℚ), centerTrajectory M = M.map centerAtOrigin := by
  refine ⟨?_, rfl, fun M => rfl⟩
  have hc := tripleCount_of_length v n hlen
  have hnq : (n : ℚ) ≠ 0 := by exact_mod_cast hn.ne'
  rw [centerAtOrigin, axisSums_subTriples, hc, hlen]
  refine Prod.ext ?_ (Prod.ext ?_ ?_) <;> simp <;> field_simp <;> ring

/-- Witness for C6 at the concrete frame `[1, 2, 3, 3, 4, 5]` (`n = 2`). -/
theorem claim_C6_witness :
    ([(1 : ℚ), 2, 3, 3, 4, 5] : List ℚ).length = 3 * 2 ∧ 0 < 2 ∧
      axisSums (centerAtOrigin [(1 : ℚ), 2, 3, 3, 4, 5]) = (0, 0, 0) :=
  ⟨by decide, by decide,
    (claim_C6 [(1 : ℚ), 2, 3, 3, 4, 5] 2 (by decide) (by decide)).1⟩

theorem tripCount_three_mul (n : ℕ) : tripCount (3 * n) = n := by
  unfold tripCount; omega

theorem three_mul_div_three (n : ℕ) : 3 * n / 3 = n := by omega

theorem E0_eq_atoms (u v : Frame) (n : ℕ) (hu : u.length = 3 * n) :
    E0 u v = E0Atoms n u v := by
  unfold E0 E0Atoms ssAxis atomGet
  rw [hu, tripCount_three_mul]
  rw [Finset.sum_comm (s := Finset.range 3) (t := Finset.range n),
    Finset.sum_comm (s := Finset.range 3) (t := Finset.range n),
    ← Finset.sum_add_distrib]
  refine Finset.sum_congr rfl fun k _ => ?_
  rw [← Finset.sum_add_distrib]

theorem covR_eq_atoms (u v : Frame) (n : ℕ) (hu : u.length = 3 * n) :
    covR u v = covRAtoms n u v := by
  funext a b
  unfold covR covRAtoms atomGet
  rw [hu, three_mul_div_three]

/-- CLAIM C1, amended: for every pair of centered coordinate vectors of
equal length `3*n` with `n > 0`, `calcRMSD` returns
`sqrt(|E0 - 2*(S0+S1+S2)| / n)` — the argument of the square root passes
through the absolute value, not a `max(0, ...)` clamp from below — where
`E0` is the sum of squared norms of both point sets, `S0+S1+S2` is the
singular-value sum produced by the SVD backend for the 3×3 cross-covariance
matrix `R` with `R[a][b] = Σ_k u_k[a]*v_k[b]`. -/
theorem claim_C1 (svd : Mat3 → ℚ) (u v : Frame) (n : ℕ)
    (hu : u.length = 3 * n) (hv : v.length = 3 * n) (hn : 0 < n)
    (hcu : axisSums u = (0, 0, 0)) (hcv : axisSums v = (0, 0, 0)) :
    calcRMSD svd u v =
      Real.sqrt (((|E0Atoms n u v - 2 * svd (covRAtoms n u v)| / n : ℚ) : ℝ)) := by
  unfold calcRMSD rmsdOf
  rw [covR_eq_atoms u v n hu, E0_eq_atoms u v n hu, hu, three_mul_div_three]

/-- Counterexample to CLAIM C1 as stated: at the centered equal-length pair
`uC1, uC1` (`n = 2 > 0`), with the SVD backend returning the sum `10`,
`calcRMSD` returns `sqrt(|E0 - 2*ss| / n) = sqrt 8 > 0`, not the claimed
`sqrt(max 0 (E0 - 2*ss) / n) = sqrt 0 = 0`: the source (line 294) applies
`abs`, not a `max(0, ...)` clamp. -/
theorem claim_C1_counterexample :
    axisSums uC1 = (0, 0, 0) ∧ uC1.length = 3 * 2 ∧ 0 < 2 ∧
    calcRMSD svdBad uC1 uC1 ≠ specRMSDFormula (svdBad (covR uC1 uC1)) uC1 uC1 := by
  refine ⟨by norm_num [uC1, axisSums], by decide, by decide, ?_⟩
  have hE : E0 uC1 uC1 = 4 := by
    norm_num [E0, ssAxis, uC1, flatGet, tripCount, Finset.sum_range_succ]
  have hlen : uC1.length = 6 := by decide
  unfold calcRMSD rmsdOf specRMSDFormula
  rw [show svdBad (covR uC1 uC1) = 10 from rfl, hE, hlen]
  have h1 : ((|(4 : ℚ) - 2 * 10| / ((6 : ℕ) / 3 : ℕ) : ℚ) : ℝ) = 8 := by norm_num
  have h2 : ((max 0 ((4 : ℚ) - 2 * 10) / ((6 : ℕ) / 3 : ℕ) : ℚ) : ℝ) = 0 := by
    norm_num
  rw [h1, h2, Real.sqrt_zero]
  exact Real.sqrt_ne_zero'.mpr (by norm_num)

/-- Witness for the amended C1 at `u = v = uC1`, `n = 2`, zero backend. -/
theorem claim_C1_witness :
    axisSums uC1 = (0, 0, 0) ∧ uC1.length = 3 * 2 ∧ 0 < 2 ∧
    calcRMSD (fun _ => (0 : ℚ)) uC1 uC1 =
      Real.sqrt (((|E0Atoms 2 uC1 uC1 - 2 * 0| / 2 : ℚ) : ℝ)) :=
  ⟨by norm_num [uC1, axisSums], by decide, by decide,
    claim_C1 (fun _ => (0 : ℚ)) uC1 uC1 2 (by decide) (by decide) (by decide)
      (by norm_num [uC1, axisSums]) (by norm_num [uC1, axisSums])⟩

theorem E0_comm (u v : Frame) (h : u.length = v.length) : E0 u v = E0 v u := by
  unfold E0
  rw [h, add_comm]

theorem covR_swap (u v : Frame) (h : u.length = v.length) :
    covR v u = mat3Transpose (covR u v) := by
  funext a b
  unfold covR mat3Transpose
  rw [h]
  exact Finset.sum_congr rfl fun k _ => mul_comm _ _

/-- CLAIM C7: for every pair of equal-length centered coordinate vectors
with `n > 0`, and any SVD backend invariant under transposition (as the
true singular values are), `calcRMSD` is symmetric in its arguments: the
cross-covariance matrices of the two argument orders are transposes of
each other, and `E0` is symmetric. -/
theorem claim_C7 (svd : Mat3 → ℚ) (hsvd : ∀ A, svd (mat3Transpose A) = svd A)
    (u v : Frame) (n : ℕ) (hu : u.length = 3 * n) (hv : v.length = 3 * n)
    (hn : 0 < n) (hcu : axisSums u = (0, 0, 0)) (hcv : axisSums v = (0, 0, 0)) :
    calcRMSD svd u v = calcRMSD svd v u := by
  have hlen : u.length = v.length := by rw [hu, hv]
  unfold calcRMSD rmsdOf
  rw [covR_swap u v hlen, hsvd, E0_comm u v hlen, hlen]

/-- Witness for C7 at two concrete centered two-atom frames. -/
theorem claim_C7_witness :
    calcRMSD svdTrace [(1 : ℚ), 0, 0, -1, 0, 0] [(2 : ℚ), 0, 0, -2, 0, 0] =
      calcRMSD svdTrace [(2 : ℚ), 0, 0, -2, 0, 0] [(1 : ℚ), 0, 0, -1, 0, 0] :=
  claim_C7 svdTrace (fun A => rfl) _ _ 2 (by decide) (by decide) (by decide)
    (by norm_num [axisSums]) (by norm_num [axisSums])

/-- CLAIM C3, amended: `calcRMSD` contains no atom-count check at all and
can never fail with an `InputError`; whenever the SVD backend succeeds —
in particular on empty inputs, where the final division is by zero (NaN in
C++ doubles, `0` under the exact-arithmetic convention here) — it returns
a value. -/
theorem claim_C3 (svd : Mat3 → Except ℤ ℚ) (u v : Frame) :
    calcRMSDE svd u v ≠ Except.error RmsdError.inputError ∧
    (∀ ss : ℚ, svd (covR u v) = Except.ok ss →
      calcRMSDE svd u v = Except.ok (rmsdOf ss u v)) := by
  constructor
  · unfold calcRMSDE
    cases h : svd (covR u v) with
    | error i => simp
    | ok ss => simp
  · intro ss h
    unfold calcRMSDE
    rw [h]

/-- Counterexample to CLAIM C3 as stated: on the empty input pair (`n = 0`)
with a successful SVD backend, `calcRMSD` does not raise an `InputError`;
it returns the value `sqrt(|0 - 0| / 0)` (`NaN` in C++, `0` here). -/
theorem claim_C3_counterexample :
    calcRMSDE (fun _ => Except.ok 0) ([] : Frame) ([] : Frame) ≠
        Except.error RmsdError.inputError ∧
      calcRMSDE (fun _ => Except.ok 0) ([] : Frame) ([] : Frame) =
        Except.ok (0 : ℝ) := by
  constructor
  · intro h
    exact Except.noConfusion h
  · show Except.ok (rmsdOf 0 [] []) = Except.ok (0 : ℝ)
    have h0 : rmsdOf 0 [] [] = 0 := by
      norm_num [rmsdOf, E0, ssAxis, tripCount]
    rw [h0]

/-- Witness for the amended C3 at a concrete one-atom input. -/
theorem claim_C3_witness :
    calcRMSDE (fun _ => Except.ok (1 : ℚ)) [(1 : ℚ), 0, 0] [(1 : ℚ), 0, 0] =
      Except.ok (rmsdOf 1 [(1 : ℚ), 0, 0] [(1 : ℚ), 0, 0]) :=
  (claim_C3 (fun _ => Except.ok (1 : ℚ)) [(1 : ℚ), 0, 0] [(1 : ℚ), 0, 0]).2 1 rfl

theorem flatMap_triples (m : ℕ) :
    (List.range m).flatMap (fun k => [3 * k, 3 * k + 1, 3 * k + 2]) =
      List.range (3 * m) := by
  induction m with
  | zero => simp
  | succ m ih =>
    rw [List.range_succ, List.flatMap_append, ih,
      show 3 * (m + 1) = 3 * m + 1 + 1 + 1 by ring,
      List.range_succ, List.range_succ, List.range_succ]
    simp

theorem readIndices_eq_range (n : ℕ) (h : 3 ∣ n) :
    readIndices n = List.range n := by
  obtain ⟨m, rfl⟩ := h
  unfold readIndices
  rw [tripCount_three_mul, flatMap_triples]

theorem mem_readIndices (n i : ℕ) : i ∈ readIndices n ↔ i < 3 * tripCount n := by
  unfold readIndices
  simp only [List.mem_flatMap, List.mem_range, List.mem_cons,
    List.not_mem_nil, or_false]
  constructor
  · rintro ⟨k, hk, h | h | h⟩ <;> omega
  · intro h
    exact ⟨i / 3, by omega, by omega⟩

theorem mem_covIndices (n i : ℕ) : i ∈ covIndices n ↔ i < 3 * (n / 3) := by
  unfold covIndices
  simp only [List.mem_flatMap, List.mem_range, List.mem_cons,
    List.not_mem_nil, or_false]
  constructor
  · rintro ⟨k, hk, h | h | h⟩ <;> omega
  · intro h
    exact ⟨i / 3, by omega, by omega⟩

theorem E0_congr_reads (u v v' : Frame)
    (h : ∀ i ∈ readIndices u.length, flatGet v i = flatGet v' i) :
    E0 u v = E0 u v' := by
  unfold E0 ssAxis
  refine congrArg _ (Finset.sum_congr rfl fun a ha => ?_)
  refine Finset.sum_congr rfl fun k hk => ?_
  rw [h (3 * k + a) ((mem_readIndices _ _).mpr ?_)]
  simp only [Finset.mem_range] at ha hk
  omega

theorem covR_congr_reads (u v v' : Frame)
    (h : ∀ i ∈ readIndices u.length, flatGet v i = flatGet v' i) :
    covR u v = covR u v' := by
  funext a b
  unfold covR
  refine Finset.sum_congr rfl fun k hk => ?_
  rw [h (3 * k + b) ((mem_readIndices _ _).mpr ?_)]
  simp only [Finset.mem_range] at hk
  have hb : (b : ℕ) < 3 := b.isLt
  unfold tripCount
  omega

/-- CLAIM C9, amended: the squared-norm loop of `calcRMSD` reads `v` at
exactly the indices at which it reads `u`, and the `dgemm_` cross-covariance
accesses are a subset of them; when `|u|` is a multiple of 3 those indices
are exactly `0 .. |u|-1` and all accesses are in bounds iff `|v| ≥ |u|`
(for `|u|` not a multiple of 3 the loop overruns `u` itself, so the
unconditional "iff" of the claim fails); under the equal-length
divisible-by-3 precondition every access is in bounds; and the equal-length
precondition is never checked inside `calcRMSD`: the result depends on `v`
only through the values read at those indices, regardless of `v`'s length. -/
theorem claim_C9 (u v : Frame) :
    (∀ i ∈ covIndices u.length, i ∈ readIndices u.length) ∧
    (3 ∣ u.length →
      readIndices u.length = List.range u.length ∧
      (inBounds u v ↔ u.length ≤ v.length)) ∧
    (u.length = v.length → 3 ∣ u.length → inBounds u v) ∧
    (∀ (svd : Mat3 → ℚ) (v' : Frame),
      (∀ i ∈ readIndices u.length, flatGet v i = flatGet v' i) →
      calcRMSD svd u v = calcRMSD svd u v') := by
  refine ⟨?_, ?_, ?_, ?_⟩
  · intro i hi
    rw [mem_covIndices] at hi
    rw [mem_readIndices]
    unfold tripCount
    omega
  · intro h3
    refine ⟨readIndices_eq_range _ h3, ?_⟩
    unfold inBounds
    rw [readIndices_eq_range _ h3]
    simp only [List.mem_range]
    constructor
    · intro h
      rcases Nat.eq_zero_or_pos u.length with h0 | h0
      · omega
      · exact Nat.le_of_pred_lt (h (u.length - 1) (by omega)).2
    · intro h i hi
      exact ⟨hi, by omega⟩
  · intro hlen h3
    unfold inBounds
    rw [readIndices_eq_range _ h3]
    simp only [List.mem_range]
    intro i hi
    omega
  · intro svd v' h
    unfold calcRMSD rmsdOf
    rw [E0_congr_reads u v v' h, covR_congr_reads u v v' h]

/-- Witness for C9 at concrete frames of lengths 3 and 3. -/
theorem claim_C9_witness :
    (3 ∣ ([(1 : ℚ), 2, 3] : Frame).length) ∧
    (inBounds [(1 : ℚ), 2, 3] [(4 : ℚ), 5, 6] ↔
      ([(1 : ℚ), 2, 3] : Frame).length ≤ ([(4 : ℚ), 5, 6] : Frame).length) :=
  ⟨by decide, ((claim_C9 [(1 : ℚ), 2, 3] [(4 : ℚ), 5, 6]).2.1 (by decide)).2⟩

/-- Counterexample to CLAIM C9 as stated: for `u = [1]` (length 1, not a
multiple of 3) and `v = [0,0,0]`, `|v| ≥ |u|` holds yet not all accesses
are in bounds — the first loop reads flat indices `0, 1, 2`, overrunning
`u` itself — so "in bounds iff `|v| ≥ |u|`" is false. -/
theorem claim_C9_counterexample :
    ¬ (inBounds [(1 : ℚ)] [(0 : ℚ), 0, 0] ↔
        ([(1 : ℚ)] : Frame).length ≤ ([(0 : ℚ), 0, 0] : Frame).length) := by
  decide

theorem foldl_rmsdsStep_snd (svd : Mat3 → ℚ) (M : List Frame)
    (L : List (ℕ × ℕ)) (st : (ℕ → ℕ → ℝ) × ℕ) :
    (L.foldl (rmsdsStep svd M) st).2 = st.2 + L.length := by
  induction L generalizing st with
  | nil => simp
  | cons q t ih =>
    rw [List.foldl_cons, ih]
    simp [rmsdsStep]
    omega

theorem foldl_rmsdsStep_untouched (svd : Mat3 → ℚ) (M : List Frame)
    (L : List (ℕ × ℕ)) (st : (ℕ → ℕ → ℝ) × ℕ) (a b : ℕ)
    (h : ∀ p ∈ L, ¬(p.1 = a ∧ p.2 = b) ∧ ¬(p.1 = b ∧ p.2 = a)) :
    (L.foldl (rmsdsStep svd M) st).1 a b = st.1 a b := by
  induction L generalizing st with
  | nil => rfl
  | cons q t ih =>
    rw [List.foldl_cons, ih _ (fun p hp => h p (List.mem_cons_of_mem q hp))]
    have hq := h q (List.mem_cons_self q t)
    have h1 : ¬(a = q.2 ∧ b = q.1) := fun hab => hq.2 ⟨hab.2.symm, hab.1.symm⟩
    have h2 : ¬(a = q.1 ∧ b = q.2) := fun hab => hq.1 ⟨hab.1.symm, hab.2.symm⟩
    simp only [rmsdsStep, writeCell, if_neg h1, if_neg h2]

theorem pairList_succ (n : ℕ) :
    pairList (n + 1) = pairList n ++ (List.range n).map (fun i => (n, i)) := by
  unfold pairList
  cases n with
  | zero => simp
  | succ m =>
    rw [show m + 1 + 1 - 1 = (m + 1 - 1) + 1 by omega, List.range'_concat,
      List.flatMap_append]
    simp [show 1 + (m + 1 - 1) = m + 1 by omega]
    rw [Nat.add_comm 1 m]

theorem length_pairList (n : ℕ) : (pairList n).length = n * (n - 1) / 2 := by
  induction n with
  | zero => simp [pairList]
  | succ m ih =>
    rw [pairList_succ, List.length_append, ih, List.length_map, List.length_range]
    cases m with
    | zero => simp
    | succ k =>
      obtain ⟨c, hc⟩ : Even ((k + 1) * k) := by
        rw [mul_comm]
        exact Nat.even_mul_succ_self k
      have h1 : (k + 2) * (k + 1) = (k + 1) * k + 2 * (k + 1) := by ring
      simp only [Nat.add_sub_cancel]
      rw [h1, hc]
      omega

theorem mem_pairList (n : ℕ) (p : ℕ × ℕ) :
    p ∈ pairList n ↔ p.2 < p.1 ∧ p.1 < n := by
  unfold pairList
  simp only [List.mem_flatMap, List.mem_map, List.mem_range, List.mem_range'_1]
  constructor
  · rintro ⟨j, hj, i, hi, rfl⟩
    exact ⟨hi, by omega⟩
  · rintro ⟨h1, h2⟩
    refine ⟨p.1, ⟨by omega, by omega⟩, p.2, h1, rfl⟩

theorem exists_last_split {α : Type} (l : List α) (x : α) (h : x ∈ l) :
    ∃ l1 l2, l = l1 ++ x :: l2 ∧ x ∉ l2 := by
  induction l with
  | nil => cases h
  | cons a t ih =>
    by_cases hx : x ∈ t
    · obtain ⟨l1, l2, rfl, hn⟩ := ih hx
      exact ⟨a :: l1, l2, rfl, hn⟩
    · rcases List.mem_cons.mp h with rfl | hmem
      · exact ⟨[], t, rfl, hx⟩
      · exact absurd hmem hx

theorem rmsdsStep_writes (svd : Mat3 → ℚ) (M : List Frame)
    (st : (ℕ → ℕ → ℝ) × ℕ) (j i : ℕ) (hne : j ≠ i) :
    (rmsdsStep svd M st (j, i)).1 j i
        = calcRMSD svd (M.getD j []) (M.getD i []) ∧
    (rmsdsStep svd M st (j, i)).1 i j
        = calcRMSD svd (M.getD j []) (M.getD i []) := by
  constructor
  · show (if j = i ∧ i = j then _ else if j = j ∧ i = i then _ else st.1 j i) = _
    rw [if_neg (fun hab => hne hab.1), if_pos ⟨rfl, rfl⟩]
  · show (if i = i ∧ j = j then _ else _) = _
    rw [if_pos ⟨rfl, rfl⟩]

theorem rmsds_offdiag (svd : Mat3 → ℚ) (M : List Frame) {i j : ℕ}
    (hij : i < j) (hj : j < M.length) :
    rmsds svd M j i = calcRMSD svd (M.getD j []) (M.getD i []) ∧
    rmsds svd M i j = calcRMSD svd (M.getD j []) (M.getD i []) := by
  have hmem : ((j, i) : ℕ × ℕ) ∈ pairList M.length :=
    (mem_pairList _ _).mpr ⟨hij, hj⟩
  obtain ⟨L1, L2, hsplit, hnotin⟩ := exists_last_split _ _ hmem
  have hsub : ∀ p ∈ L2, p ∈ pairList M.length := by
    intro p hp
    rw [hsplit]
    exact List.mem_append_right _ (List.mem_cons_of_mem _ hp)
  have hne : i ≠ j := Nat.ne_of_lt hij
  have huntouched : ∀ p ∈ L2, ¬(p.1 = j ∧ p.2 = i) ∧ ¬(p.1 = i ∧ p.2 = j) := by
    intro p hp
    constructor
    · rintro ⟨h1, h2⟩
      exact hnotin (by rwa [show p = (j, i) from Prod.ext h1 h2] at hp)
    · rintro ⟨h1, h2⟩
      have := (mem_pairList M.length p).mp (hsub p hp)
      omega
  unfold rmsds rmsdsLoop
  rw [hsplit, List.foldl_append, List.foldl_cons]
  constructor
  · rw [foldl_rmsdsStep_untouched svd M L2 _ j i (fun p hp => (huntouched p hp))]
    exact (rmsdsStep_writes svd M _ j i (Ne.symm hne)).1
  · rw [foldl_rmsdsStep_untouched svd M L2 _ i j
      (fun p hp => ⟨(huntouched p hp).2, (huntouched p hp).1⟩)]
    exact (rmsdsStep_writes svd M _ j i (Ne.symm hne)).2

theorem rmsds_diag (svd : Mat3 → ℚ) (M : List Frame) (i : ℕ) :
    rmsds svd M i i = 0 := by
  unfold rmsds rmsdsLoop
  rw [foldl_rmsdsStep_untouched svd M _ _ i i ?_]
  · rintro p hp
    have := (mem_pairList M.length p).mp hp
    omega

/-- CLAIM C2: the produced matrix satisfies `M[i][j] = M[j][i]` and
`M[i][i] = 0` for all valid indices; the builder evaluates `calcRMSD` only
for the `N(N-1)/2` loop pairs `(j, i)` with `i < j`, writes each result to
both `M[j][i]` and `M[i][j]`, and never touches the diagonal (which stays
at its zero initialization). -/
theorem claim_C2 (svd : Mat3 → ℚ) (M : List Frame) (i j : ℕ)
    (hi : i < M.length) (hj : j < M.length) :
    rmsds svd M i j = rmsds svd M j i ∧
    rmsds svd M i i = 0 ∧
    (pairList M.length).length = M.length * (M.length - 1) / 2 ∧
    (∀ p ∈ pairList M.length, p.2 < p.1 ∧ p.1 < M.length) ∧
    (i < j → ((j, i) ∈ pairList M.length ∧
      rmsds svd M j i = calcRMSD svd (M.getD j []) (M.getD i []) ∧
      rmsds svd M i j = calcRMSD svd (M.getD j []) (M.getD i []))) := by
  refine ⟨?_, rmsds_diag svd M i, length_pairList _,
    fun p hp => (mem_pairList _ p).mp hp, ?_⟩
  · rcases lt_trichotomy i j with h | rfl | h
    · have hc := rmsds_offdiag svd M h hj
      rw [hc.1, hc.2]
    · rfl
    · have hc := rmsds_offdiag svd M h hi
      rw [hc.1, hc.2]
  · intro hij
    exact ⟨(mem_pairList _ _).mpr ⟨hij, hj⟩, (rmsds_offdiag svd M hij hj).1,
      (rmsds_offdiag svd M hij hj).2⟩

/-- Witness for C2 on the concrete two-frame trajectory `MW`. -/
theorem claim_C2_witness :
    0 < MW.length ∧ 1 < MW.length ∧ rmsds (fun _ => (0 : ℚ)) MW 0 0 = 0 :=
  ⟨by decide, by decide, (claim_C2 (fun _ => (0 : ℚ)) MW 0 1 (by decide) (by decide)).2.1⟩

/-- CLAIM C8: the progress counter advances by exactly one per completed
pair (after `k` pairs it reads `k`), never exceeds
`total = N(N-1)/2`, equals exactly that value when the pair loop completes,
and the reporter's trigger is configured with fraction `0.1`, firing only
when completion crosses a multiple of 10%. -/
theorem claim_C8 (svd : Mat3 → ℚ) (M : List Frame) (k : ℕ)
    (hk : k ≤ (pairList M.length).length) :
    countAfter svd M k = k ∧
    countAfter svd M k ≤ rmsdsTotal M.length ∧
    (rmsdsLoop svd M).2 = rmsdsTotal M.length ∧
    rmsdsTrigger.fraction = 1 / 10 ∧
    (∀ total prev cur : ℕ, rmsdsTrigger.fires total prev cur →
      ∃ m : ℕ, (prev : ℚ) / total < m * (1 / 10) ∧
        (m * (1 / 10) : ℚ) ≤ (cur : ℚ) / total) := by
  have hlen := length_pairList M.length
  have h1 : countAfter svd M k = k := by
    unfold countAfter
    rw [foldl_rmsdsStep_snd]
    simp [List.length_take, hk]
  refine ⟨h1, ?_, ?_, rfl, fun total prev cur h => h⟩
  · rw [h1]
    unfold rmsdsTotal
    rw [← hlen]
    exact hk
  · unfold rmsdsLoop rmsdsTotal
    rw [foldl_rmsdsStep_snd, hlen]
    omega

/-- Witness for C8 on `MW` (2 frames, hence one pair) after one update. -/
theorem claim_C8_witness :
    1 ≤ (pairList MW.length).length ∧ countAfter (fun _ => (0 : ℚ)) MW 1 = 1 :=
  ⟨by decide, (claim_C8 (fun _ => (0 : ℚ)) MW 1 (by decide)).1⟩

/-- CLAIM C4: contrary to the claim, no run ever computes the byte
estimate or emits a `ResourceWarning`: `readCoords` (the coordinate cache)
contains no warning logic, so its warning list is empty for every input —
in particular for runs whose estimate exceeds the threshold fraction of
physical memory, where the claim (and the tool's own help text, source
lines 80-83, together with the unused constant declared at source lines
53-58) requires a warning to fire. -/
theorem claim_C4 :
    (∀ (n : ℕ) (traj : Traj),
      (readCoordsRun n traj).2 = ([] : List ToolWarning)) ∧
    specCacheWarning 1000000 1000 (8 * 10 ^ 9) = true := by
  refine ⟨fun n traj => rfl, ?_⟩
  unfold specCacheWarning cache_memory_fraction_warning
  rw [decide_eq_true_eq]
  norm_num

theorem sigRound_twelve_point_three : sigRound 2 (123 / 10) = 12 := by
  unfold sigRound
  rw [if_neg (by norm_num)]
  have habs : |(123 / 10 : ℚ)| = 123 / 10 := by
    rw [abs_of_pos]
    norm_num
  have hf : ⌊(123 / 10 : ℚ)⌋₊ = 12 := by
    rw [Nat.floor_eq_iff (by norm_num)]
    norm_num
  have hlog : Int.log 10 (|(123 / 10 : ℚ)|) = 1 := by
    rw [habs, Int.log_of_one_le_right _ (by norm_num), hf]
    exact_mod_cast Nat.log_eq_of_pow_le_of_lt_pow (by norm_num : 10 ^ 1 ≤ 12)
      (by norm_num : 12 < 10 ^ (1 + 1))
  rw [hlog]
  norm_num [round_eq]

theorem decRound_twelve_point_three : decRound 2 (123 / 10) = 123 / 10 := by
  unfold decRound
  norm_num [round_eq]

/-- CLAIM C5, amended: the serialized output is the header comment line
`"# " ++ provenance` followed by the matrix rows, shape preserved, with
every value formatted to `matrix_precision = 2` SIGNIFICANT digits (the
iostream default floatfield under `setprecision(2)`), not 2 decimal
places; two runs with identical inputs and precision setting produce
identical output. -/
theorem claim_C5 (header1 header2 : String) (M1 M2 : List (List ℚ))
    (hh : header1 = header2) (hM : M1 = M2) :
    (serializeMatrix header1 M1).headerLine = "# " ++ header1 ∧
    (serializeMatrix header1 M1).rows =
      M1.map (fun r => r.map (sigRound matrix_precision)) ∧
    (serializeMatrix header1 M1).rows.length = M1.length ∧
    (∀ r ∈ M1, (r.map (sigRound matrix_precision)).length = r.length) ∧
    serializeMatrix header1 M1 = serializeMatrix header2 M2 := by
  subst hh hM
  exact ⟨rfl, rfl, by simp [serializeMatrix], fun r hr => by simp, rfl⟩

/-- Witness for the amended C5 at a concrete header and 1×1 matrix. -/
theorem claim_C5_witness :
    serializeMatrix "hdr" [[1]] = serializeMatrix "hdr" [[1]] :=
  (claim_C5 "hdr" "hdr" [[1]] [[1]] rfl rfl).2.2.2.2

/-- Counterexample to CLAIM C5 as stated: for the matrix `[[12.3]]` the
serialized value is `12` (two significant digits under `setprecision(2)`
in the default floatfield), not the `12.30` that a fixed precision of two
decimal places would produce. -/
theorem claim_C5_counterexample :
    serializeMatrix "h" [[123 / 10]] ≠ specSerializeMatrix "h" [[123 / 10]] ∧
    (serializeMatrix "h" [[123 / 10]]).rows = [[12]] ∧
    (specSerializeMatrix "h" [[123 / 10]]).rows = [[123 / 10]] := by
  have h1 : sigRound matrix_precision (123 / 10) = 12 := sigRound_twelve_point_three
  have h2 : decRound matrix_precision (123 / 10) = 123 / 10 :=
    decRound_twelve_point_three
  refine ⟨?_, ?_, ?_⟩
  · intro h
    have hrows := congrArg MatrixOutput.rows h
    simp only [serializeMatrix, specSerializeMatrix, List.map_cons, List.map_nil,
      h1, h2] at hrows
    have : (12 : ℚ) = 123 / 10 := by
      have := List.cons.injEq _ _ _ _ ▸ hrows
      simpa using hrows
    norm_num at this
  · simp [serializeMatrix, h1]
  · simp [specSerializeMatrix, h2]

/-- CLAIM C10: two runs differing only in `skip1`, `range1`, `sel2`,
`skip2`, `range2`, `model2`, `traj2` produce identical run results —
identical matrices and identical matrix value rows — because the
computation reads only `model1`, `traj1`, `sel1` (and `noop`), and
`readCoords` reads every frame of the first trajectory from index 0 to
`nframes - 1` with no skip or range applied. -/
theorem claim_C10 (w : World) (svd : Mat3 → ℚ) (c1 c2 : ToolOptions)
    (hm : c1.model1 = c2.model1) (ht : c1.traj1 = c2.traj1)
    (hs : c1.sel1 = c2.sel1) (hn : c1.noop = c2.noop) :
    mainRun w svd c1 = mainRun w svd c2 ∧
    matrixRows (mainRun w svd c1).matrix (mainRun w svd c1).nframes =
      matrixRows (mainRun w svd c2).matrix (mainRun w svd c2).nframes ∧
    (∀ (n : ℕ) (traj : Traj),
      ((readCoordsRun n traj).1).length = traj.nframes ∧
      ∀ j, j < traj.nframes →
        ((readCoordsRun n traj).1).getD j [] =
          (List.range n).flatMap (fun i =>
            [(traj.frameCoords j i).1, (traj.frameCoords j i).2.1,
             (traj.frameCoords j i).2.2])) := by
  have hmain : mainRun w svd c1 = mainRun w svd c2 := by
    unfold mainRun
    rw [hm, ht, hs, hn]
  refine ⟨hmain, by rw [hmain], ?_⟩
  intro n traj
  refine ⟨by simp [readCoordsRun], ?_⟩
  intro j hj
  simp [readCoordsRun, List.getD_eq_getElem?_getD, List.getElem?_map,
    List.getElem?_range hj]

/-- Witness for C10: `optsA` and `optsB` differ in all seven unused options
yet produce the same run result in the concrete world `worldW`. -/
theorem claim_C10_witness :
    optsA.model1 = optsB.model1 ∧ optsA.skip1 ≠ optsB.skip1 ∧
    mainRun worldW (fun _ => (0 : ℚ)) optsA = mainRun worldW (fun _ => (0 : ℚ)) optsB :=
  ⟨rfl, by decide,
    (claim_C10 worldW (fun _ => (0 : ℚ)) optsA optsB rfl rfl rfl rfl).1⟩

end Rmsds
